import Mathlib

/-!
Verification of the no-UI upload supervisor of immich-go.

The definitions below are a shallow embedding of
`src/app/upload/noui.go` (`runNoUI` and its closures),
`src/unnamed/part_000` (package `jsonoutput`), and
`src/app/log.go` (`FilteredHandler.Handle` and the api-key masking in
`Log.Open`).  Go machine integers are modelled as `Int`, Go strings as
`List Char`, Go errors as the inductive `GoErr` with `none : Option GoErr`
standing for a nil error.
-/

namespace ImmichGo

/-- Go errors, as far as the supervisor distinguishes them:
`mk s` is `errors.New(s)`, `canceledErr` is `context.Canceled`, and
`joinErr a b` is `errors.Join(a, b)` with both arguments non-nil.
(Go's `errors.Join` with a single non-nil argument returns an error that
wraps just that one; the model returns the error itself, which preserves
nil-ness and `errors.Is` behaviour, the only aspects the supervisor uses.) -/
inductive GoErr where
  | mk (msg : String)
  | canceledErr
  | joinErr (a b : GoErr)
deriving DecidableEq

/-- `errors.Is(e, context.Canceled)`: true on `context.Canceled` itself and
on any join containing it; `errors.New` messages never match. -/
def isCanceled : GoErr → Bool
  | .canceledErr => true
  | .mk _ => false
  | .joinErr a b => isCanceled a || isCanceled b

/-- `errors.Join(a, b)`: nil iff both arguments are nil. -/
def goJoin : Option GoErr → Option GoErr → Option GoErr
  | none, none => none
  | some a, none => some a
  | none, some b => some b
  | some a, some b => some (.joinErr a b)

/-- The cancellation cell of `context.WithCancelCause` (Go standard
library, used at `noui.go:18`): `none` = not cancelled; `some c` =
cancelled with cause `c`.  The first call to the cancel function sets the
cause; every later call is a no-op.  Calling cancel with a nil error
records `context.Canceled` as the cause. -/
def cancelCell (cell : Option GoErr) (cause : Option GoErr) : Option GoErr :=
  match cell with
  | some _ => cell
  | none => some (cause.getD .canceledErr)

/-- `context.Cause(ctx)`: the recorded cause if the context has been
cancelled, nil otherwise. -/
def contextCause (cell : Option GoErr) : Option GoErr := cell

/-! ## Shared progress state (`noui.go:23-39`) -/

/-- The two closure-captured counters `currImmich, maxImmich` of
`runNoUI`, guarded in the source by `lock`. -/
structure ProgressState where
  currImmich : Int
  maxImmich : Int
deriving DecidableEq

/-- `immichUpdate` (`noui.go:25-29`): overwrite both counters. -/
def immichUpdate (_s : ProgressState) (value total : Int) : ProgressState :=
  { currImmich := value, maxImmich := total }

/-- `getImmichPct` (`noui.go:31-39`).  Go's `/` on `int` truncates toward
zero, which is `Int.tdiv`. -/
def getImmichPct (s : ProgressState) : Int :=
  if s.maxImmich > 0 then Int.tdiv (100 * s.currImmich) s.maxImmich
  else 100

/-- The sequence of `percent()` readings produced by a sequence of
`update(value, total)` calls with a fixed `total`, one reading after each
call.  Each `update` overwrites the whole state, so the reading after the
k-th call depends only on the k-th value and `total`. -/
def pctReadings (s : ProgressState) (total : Int) (values : List Int) : List Int :=
  values.map (fun v => getImmichPct (immichUpdate s v total))

/-- A decidable "non-decreasing" predicate on lists of integers. -/
def nondecr : List Int → Bool
  | [] => true
  | [_] => true
  | a :: b :: r => decide (a ≤ b) && nondecr (b :: r)

/-! ## The progress-reporting goroutine (`noui.go:73-107`)

The goroutine loops on a `select` over the ticker, the `stopProgress`
channel and `ctx.Done()`.  A schedule is the list of cases the `select`
resolves to; the goroutine leaves the loop at the first `stop` or
`ctxDone` in the schedule.  On the ticker case it emits one periodic
progress output (a JSON line in JSON mode, a log line in non-interactive
mode); on return, its deferred block emits the final progress output
once. -/

/-- One resolved `select` case of the reporting loop. -/
inductive SelectCase where
  | tick
  | stop
  | ctxDone
deriving DecidableEq

/-- Render events emitted by the reporting goroutine. `periodicRender` is
the ticker branch, `finalRender` is the deferred final-status block; each
writes the mode-appropriate progress output. -/
inductive ProgressEvent where
  | periodicRender
  | finalRender
deriving DecidableEq

/-- The `for`/`select` loop body of the reporting goroutine: returns the
events emitted inside the loop and the goroutine's return value
(`nil` on `stopProgress`, `ctx.Err() = context.Canceled` on `ctx.Done()`),
or `none` if the schedule ends without the loop exiting. -/
def progressLoop : List SelectCase → Option (List ProgressEvent × Option GoErr)
  | [] => none
  | .tick :: rest =>
    (progressLoop rest).map (fun tr => (.periodicRender :: tr.1, tr.2))
  | .stop :: _ => some ([], none)
  | .ctxDone :: _ => some ([], some .canceledErr)

/-- The whole reporting goroutine: the loop, then the deferred final
render (`noui.go:81-89`) executed on the way out. -/
def progressTask (sched : List SelectCase) : Option (List ProgressEvent × Option GoErr) :=
  (progressLoop sched).map (fun tr => (tr.1 ++ [.finalRender], tr.2))

/-! ## The pipeline goroutine and `runNoUI` (`noui.go:109-161`) -/

/-- The externally supplied outcomes of one run: results of the three
discovery phases, the upload loop and the finishing step, the four
error-class counters as read after the loop (`noui.go:143-145`), and the
root context's cause if it was already cancelled when the run started. -/
structure RunInputs where
  rootCause : Option GoErr
  assetsErr : Option GoErr
  albumsErr : Option GoErr
  uploadErr : Option GoErr
  finishErr : Option GoErr
  errorUploadFailed : Nat
  errorServerError : Nat
  errorFileAccess : Nat
  errorIncomplete : Nat
deriving DecidableEq

/-- The advisory message composed at `noui.go:146`. -/
def advisoryText : String := "Some errors have occurred. Check stderr for details\n"

/-- The aggregate advisory error `errors.New(messages.String())`
(`noui.go:150`). -/
def advisoryErr : GoErr := .mk advisoryText

/-- Observable outcome of the pipeline goroutine (`noui.go:109-155`):
the cancellation cell on exit, the goroutine's returned error, whether
`uc.uploadLoop` was entered, and whether `close(stopProgress)` ran. -/
structure PipeOutcome where
  cell : Option GoErr
  ret : Option GoErr
  uploadStarted : Bool
  stopClosed : Bool
deriving DecidableEq

/-- `noui.go:138-154`: the part of the pipeline goroutine after the
phase join.  Runs the upload loop (cancelling with its error on failure),
inspects the four error-class counters and cancels with the advisory
message if their sum is positive, joins the loop error with the finishing
step's error, and closes `stopProgress`. -/
def afterPhases (inp : RunInputs) (cell : Option GoErr) : PipeOutcome :=
  let err1 := inp.uploadErr
  let cell2 :=
    match err1 with
    | some e => cancelCell cell (some e)
    | none => cell
  let advisory :=
    inp.errorUploadFailed + inp.errorServerError + inp.errorFileAccess + inp.errorIncomplete > 0
  let cell3 := if advisory then cancelCell cell2 (some advisoryErr) else cell2
  { cell := cell3
    ret := goJoin err1 inp.finishErr
    uploadStarted := true
    stopClosed := true }

/-- The pipeline goroutine (`noui.go:109-155`).  The three phase
goroutines: the assets goroutine cancels with its error (`noui.go:114-121`);
the albums goroutine returns its error without cancelling (`noui.go:122-124`);
the browse goroutine returns the captured outer `err` variable, still nil
at that point (`noui.go:125-129`).  `processGrp.Wait()` returns the first
non-nil error in completion order; `assetsFirst` resolves that order when
both the assets and the albums phases fail.  After the join
(`noui.go:130-137`): if `Wait` errored, re-read `context.Cause`; only when
a cause is set does the goroutine cancel with it again and return it —
otherwise control falls through to the upload loop. -/
def uploadPipeline (inp : RunInputs) (assetsFirst : Bool) : PipeOutcome :=
  let cell0 := inp.rootCause
  let cell1 :=
    match inp.assetsErr with
    | some e => cancelCell cell0 (some e)
    | none => cell0
  let waitErr :=
    if assetsFirst then inp.assetsErr.orElse (fun _ => inp.albumsErr)
    else inp.albumsErr.orElse (fun _ => inp.assetsErr)
  match waitErr with
  | none => afterPhases inp cell1
  | some _ =>
    match contextCause cell1 with
    | some c =>
      { cell := cancelCell cell1 (some c)
        ret := some c
        uploadStarted := false
        stopClosed := false }
    | none => afterPhases inp cell1

/-- Return value of the reporting goroutine as joined by `uiGrp.Wait()`:
nil when it left via `stopProgress`, `context.Canceled` when it left via
`ctx.Done()`.  `viaStop` resolves the `select` race when both channels
are ready; when `stopProgress` was never closed the goroutine can only
leave via cancellation, and when no cause was ever set it can only leave
via `stopProgress`. -/
def progressReturn (p : PipeOutcome) (viaStop : Bool) : Option GoErr :=
  if p.stopClosed && (viaStop || p.cell.isNone) then none
  else some .canceledErr

/-- Caller-observable outcome of `runNoUI`. -/
structure RunOutcome where
  ret : Option GoErr
  uploadStarted : Bool
  resolvedCause : Option GoErr
deriving DecidableEq

/-- `runNoUI` (`noui.go:17-162`): run both top-level goroutines, take the
first non-nil error from `uiGrp.Wait()`, and if it is non-nil replace it
by `context.Cause(ctx)` (`noui.go:157-161`).  The deferred `cancel(nil)`
runs after the return value is computed and affects nothing observable. -/
def runNoUI (inp : RunInputs) (assetsFirst viaStop : Bool) : RunOutcome :=
  let p := uploadPipeline inp assetsFirst
  let uiErr := p.ret.orElse (fun _ => progressReturn p viaStop)
  let ret :=
    match uiErr with
    | some _ => contextCause p.cell
    | none => none
  { ret := ret
    uploadStarted := p.uploadStarted
    resolvedCause := p.cell }

/-! ## Package `jsonoutput` (`src/unnamed/part_000`)

Go strings and byte slices are modelled as `List Char`. -/

/-- `c.isPrefixOf`-style check: does `hay` start with `needle`? -/
def startsWithChars : List Char → List Char → Bool
  | _, [] => true
  | [], _ :: _ => false
  | c :: cs, d :: ds => c == d && startsWithChars cs ds

/-- `strings.Contains(hay, needle)`: does `needle` occur contiguously in
`hay`? -/
def containsSub : List Char → List Char → Bool
  | [], needle => needle.isEmpty
  | c :: cs, needle => startsWithChars (c :: cs) needle || containsSub cs needle

/-- Decimal digits of `n`, most significant first, accumulated into
`acc`; `fuel` bounds the recursion (`fuel > n` suffices). -/
def natDecimalAux : Nat → Nat → List Char → List Char
  | 0, _, acc => acc
  | fuel + 1, n, acc =>
    let d := Char.ofNat (48 + n % 10)
    if n < 10 then d :: acc
    else natDecimalAux fuel (n / 10) (d :: acc)

/-- Decimal rendering of a natural number. -/
def natDecimal (n : Nat) : List Char := natDecimalAux (n + 1) n []

/-- `strconv.AppendInt` as used by `encoding/json` for integer fields:
decimal, with a leading minus sign for negatives. -/
def intDecimal (i : Int) : List Char :=
  if i < 0 then '-' :: natDecimal (-i).toNat else natDecimal i.toNat

/-- Hexadecimal digit used by `encoding/json`'s `\u00XX` escapes. -/
def hexDigit (n : Nat) : Char :=
  if n < 10 then Char.ofNat (48 + n) else Char.ofNat (87 + n)

/-- `encoding/json`'s escaping of one character inside a string literal
(default encoder: HTML escaping on; control characters as named escapes
or `\u00XX`; U+2028/U+2029 escaped). -/
def jsonEscapeChar (c : Char) : List Char :=
  if c = '"' then ['\\', '"']
  else if c = '\\' then ['\\', '\\']
  else if c = '\n' then ['\\', 'n']
  else if c = '\r' then ['\\', 'r']
  else if c = '\t' then ['\\', 't']
  else if c = '<' then ['\\', 'u', '0', '0', '3', 'c']
  else if c = '>' then ['\\', 'u', '0', '0', '3', 'e']
  else if c = '&' then ['\\', 'u', '0', '0', '2', '6']
  else if c.toNat < 32 then ['\\', 'u', '0', '0', hexDigit (c.toNat / 16), hexDigit (c.toNat % 16)]
  else if c.toNat = 8232 then ['\\', 'u', '2', '0', '2', '8']
  else if c.toNat = 8233 then ['\\', 'u', '2', '0', '2', '9']
  else [c]

/-- A JSON string literal: quote, escaped characters, quote. -/
def jsonQuote (s : List Char) : List Char :=
  '"' :: s.flatMap jsonEscapeChar ++ ['"']

/-- `json.Marshal` of a `ProgressUpdate` (`part_000:14-21`): fields in
struct order with the tags `type`, `timestamp`, `immich_read_pct`,
`assets_found`, `upload_errors`, `uploaded`.  `time.Time` marshals itself
as a double-quoted RFC 3339 text, taken here as the input `ts`. -/
def marshalProgressUpdate (ts : List Char) (immichPct totalAssets uploadErrors uploaded : Int) :
    List Char :=
  "\x7b\"type\":".toList ++ jsonQuote "progress".toList
    ++ ",\"timestamp\":".toList ++ ('"' :: ts ++ ['"'])
    ++ ",\"immich_read_pct\":".toList ++ intDecimal immichPct
    ++ ",\"assets_found\":".toList ++ intDecimal totalAssets
    ++ ",\"upload_errors\":".toList ++ intDecimal uploadErrors
    ++ ",\"uploaded\":".toList ++ intDecimal uploaded
    ++ "\x7d".toList

/-- The two standard streams. -/
inductive Stream where
  | stdout
  | stderr
deriving DecidableEq

/-- One `Write` call on a stream. -/
structure WriteCall where
  stream : Stream
  data : List Char
deriving DecidableEq

/-- `writeJSON` (`part_000:84-94`): append a newline to the marshalled
bytes and write them to stdout in a single `Write` call. -/
def writeJSON (payload : List Char) : List WriteCall :=
  [{ stream := .stdout, data := payload ++ ['\n'] }]

/-- `WriteProgress` (`part_000:41-51`): build the `ProgressUpdate` record
with discriminator `"progress"` and the current timestamp, then hand it
to `writeJSON`. -/
def writeProgress (ts : List Char) (immichPct totalAssets uploadErrors uploaded : Int) :
    List WriteCall :=
  writeJSON (marshalProgressUpdate ts immichPct totalAssets uploadErrors uploaded)

/-! ## `log.go`: the filtering handler (`log.go:236-256`) and the api-key
masking in `Log.Open` (`log.go:95-103`) -/

/-- The value carried by one `slog` attribute, as far as
`FilteredHandler.Handle` inspects it: either an error value (the type
assertion `a.Value.Any().(error)` succeeds) or anything else. -/
inductive SlogValue where
  | errVal (e : GoErr)
  | otherVal
deriving DecidableEq

/-- One `slog.Attr`. -/
structure SlogAttr where
  value : SlogValue
deriving DecidableEq

/-- A `slog.Record`: numeric level (`slog.LevelError = 8`) and
attributes. -/
structure SlogRecord where
  level : Int
  attrs : List SlogAttr
deriving DecidableEq

/-- `slog.LevelError`. -/
def levelError : Int := 8

/-- The per-attribute test inside `Handle`'s `r.Attrs` callback: the
attribute holds an error and `errors.Is(err, context.Canceled)`. -/
def attrIsCanceledError (a : SlogAttr) : Bool :=
  match a.value with
  | .errVal e => isCanceled e
  | .otherVal => false

/-- `FilteredHandler.Handle` (`log.go:236-256`): for records at level
Error or above, scan the attributes; if one carries an error matching
`context.Canceled`, drop the record (return nil without forwarding);
otherwise forward the record unchanged to the wrapped handler.  `none`
models the dropped case, `some r` the forwarded record. -/
def filteredHandlerHandle (r : SlogRecord) : Option SlogRecord :=
  if levelError ≤ r.level && r.attrs.any attrIsCanceledError then none
  else some r

/-- The value-masking step of the flag listing in `Log.Open`
(`log.go:95-103`): when the flag name contains `"api-key"` and the value
is longer than 4 bytes, replace all but the last 4 bytes by asterisks. -/
def maskFlagValue (name val : List Char) : List Char :=
  if containsSub name "api-key".toList && val.length > 4 then
    List.replicate (val.length - 4) '*' ++ val.drop (val.length - 4)
  else val

/-- The logged flag line `log.Info("", "--"+flag.Name, val, "origin",
origin)` after masking: its three data components. -/
def loggedFlagLine (name val origin : List Char) : List Char × List Char × List Char :=
  ('-' :: '-' :: name, maskFlagValue name val, origin)

/-! ## Named run inputs used by the claims -/

/-- A run in which only the album-fetch phase fails (with `e`): every
other phase, the upload loop and the finishing step succeed, all error
counters are zero, and the root context is live. -/
def albumFailInput (e : GoErr) : RunInputs :=
  { rootCause := none, assetsErr := none, albumsErr := some e, uploadErr := none,
    finishErr := none, errorUploadFailed := 0, errorServerError := 0,
    errorFileAccess := 0, errorIncomplete := 0 }

/-- A run in which the upload loop fails with `e1` (resolving the first
cause) and the error counters are non-zero, so the advisory cancellation
is attempted later; the finishing step returns `fin`. -/
def uploadFailsInput (e1 : GoErr) (fin : Option GoErr) : RunInputs :=
  { rootCause := none, assetsErr := none, albumsErr := none, uploadErr := some e1,
    finishErr := fin, errorUploadFailed := 1, errorServerError := 0,
    errorFileAccess := 0, errorIncomplete := 0 }

/-- A run in which everything succeeds but one error-class counter is
non-zero when inspected after the loop. -/
def advisoryOnlyInput : RunInputs :=
  { rootCause := none, assetsErr := none, albumsErr := none, uploadErr := none,
    finishErr := none, errorUploadFailed := 0, errorServerError := 1,
    errorFileAccess := 0, errorIncomplete := 0 }

/-- A run in which the upload loop fails with `a` and the finishing step
fails with `b`; phases succeed and all counters are zero. -/
def bothFailInput (a b : GoErr) : RunInputs :=
  { rootCause := none, assetsErr := none, albumsErr := none, uploadErr := some a,
    finishErr := some b, errorUploadFailed := 0, errorServerError := 0,
    errorFileAccess := 0, errorIncomplete := 0 }

/-- A run in which only the finishing step fails (with `b`). -/
def finishOnlyInput (b : GoErr) : RunInputs :=
  { rootCause := none, assetsErr := none, albumsErr := none, uploadErr := none,
    finishErr := some b, errorUploadFailed := 0, errorServerError := 0,
    errorFileAccess := 0, errorIncomplete := 0 }

/-! # Theorems -/

/-! ## Helper lemmas on the percent accessor -/

theorem getImmichPct_update_pos (s : ProgressState) (t v : Int) (ht : 0 < t) :
    getImmichPct (immichUpdate s v t) = Int.tdiv (100 * v) t := by
  simp [getImmichPct, immichUpdate, ht]

theorem getImmichPct_update_mono (s : ProgressState) (t a b : Int) (ht : 0 < t)
    (ha : 0 ≤ a) (hab : a ≤ b) :
    getImmichPct (immichUpdate s a t) ≤ getImmichPct (immichUpdate s b t) := by
  rw [getImmichPct_update_pos s t a ht, getImmichPct_update_pos s t b ht]
  rw [Int.tdiv_eq_ediv (by positivity) (le_of_lt ht),
    Int.tdiv_eq_ediv (by linarith) (le_of_lt ht)]
  exact Int.ediv_le_ediv ht (by linarith)

theorem getImmichPct_update_bounds (s : ProgressState) (t v : Int) (ht : 0 < t)
    (h0 : 0 ≤ v) (hv : v ≤ t) :
    0 ≤ getImmichPct (immichUpdate s v t) ∧ getImmichPct (immichUpdate s v t) ≤ 100 := by
  rw [getImmichPct_update_pos s t v ht,
    Int.tdiv_eq_ediv (by positivity) (le_of_lt ht)]
  constructor
  · exact Int.ediv_nonneg (by positivity) (le_of_lt ht)
  · calc 100 * v / t ≤ 100 * t / t := Int.ediv_le_ediv ht (by linarith)
    _ = 100 := Int.mul_ediv_cancel 100 (by omega)

theorem nondecr_map (f : Int → Int) (values : List Int)
    (hf : ∀ a b, a ∈ values → b ∈ values → a ≤ b → f a ≤ f b)
    (h : nondecr values = true) : nondecr (values.map f) = true := by
  induction values with
  | nil => rfl
  | cons a rest ih =>
    cases rest with
    | nil => rfl
    | cons b r =>
      simp only [nondecr, Bool.and_eq_true, decide_eq_true_eq] at h
      simp only [List.map, nondecr, Bool.and_eq_true, decide_eq_true_eq]
      refine ⟨hf a b (by simp) (by simp) h.1, ?_⟩
      exact ih (fun x y hx hy => hf x y (List.mem_cons_of_mem a hx) (List.mem_cons_of_mem a hy)) h.2

/-! ## C6 and C7 -/

/-- C6: the percent accessor returns `100 * current / total` with Go's
truncating integer division whenever the recorded total is positive, and
returns `100` whenever the recorded total is `0`; in particular after
`update(0, 0)` it returns `100`. -/
theorem C6_percent_accessor (s : ProgressState) :
    (0 < s.maxImmich → getImmichPct s = Int.tdiv (100 * s.currImmich) s.maxImmich) ∧
    (s.maxImmich = 0 → getImmichPct s = 100) ∧
    getImmichPct (immichUpdate s 0 0) = 100 := by
  refine ⟨fun h => ?_, fun h => ?_, rfl⟩
  · simp [getImmichPct, h]
  · simp [getImmichPct, h]

theorem C6_witness :
    getImmichPct ⟨1, 2⟩ = Int.tdiv (100 * 1) 2 ∧ getImmichPct ⟨3, 0⟩ = 100 :=
  ⟨(C6_percent_accessor ⟨1, 2⟩).1 (by decide), (C6_percent_accessor ⟨3, 0⟩).2.1 rfl⟩

/-- C7 counterexample: the one-call sequence `update(200, 100)` has a
fixed total `100 > 0` and non-decreasing values, yet `percent()` then
returns `200`, outside `[0, 100]`, so the claim as stated is false. -/
theorem C7_counterexample :
    (0 : Int) < 100 ∧ nondecr [200] = true ∧
    ¬ (∀ p ∈ pctReadings ⟨0, 0⟩ 100 [200], 0 ≤ p ∧ p ≤ 100) := by decide

/-- C7 amended: for any sequence of `update(value, total)` calls with a
fixed `total > 0` and non-decreasing values, where additionally every
value lies in `[0, total]`, the successive `percent()` results are
non-decreasing and every result lies in `[0, 100]`. -/
theorem C7_percent_monotone (s : ProgressState) (total : Int) (values : List Int)
    (htotal : 0 < total) (hmono : nondecr values = true)
    (hbound : ∀ v ∈ values, 0 ≤ v ∧ v ≤ total) :
    nondecr (pctReadings s total values) = true ∧
    ∀ p ∈ pctReadings s total values, 0 ≤ p ∧ p ≤ 100 := by
  constructor
  · exact nondecr_map _ values
      (fun a b ha _hb hab => getImmichPct_update_mono s total a b htotal (hbound a ha).1 hab)
      hmono
  · intro p hp
    obtain ⟨v, hv, rfl⟩ := List.mem_map.mp hp
    exact getImmichPct_update_bounds s total v htotal (hbound v hv).1 (hbound v hv).2

theorem C7_witness :
    nondecr (pctReadings ⟨0, 0⟩ 200 [50, 200]) = true ∧
    ∀ p ∈ pctReadings ⟨0, 0⟩ 200 [50, 200], 0 ≤ p ∧ p ≤ 100 :=
  C7_percent_monotone ⟨0, 0⟩ 200 [50, 200] (by decide) (by decide) (by decide)

/-! ## C9 and C10 -/

/-- C9: the filtering log handler drops (returns nil without forwarding)
every record of level Error or higher that carries an attribute whose
value is an error matching `context.Canceled`, and forwards every other
record unchanged to the wrapped handler. -/
theorem C9_filtered_handler (r : SlogRecord) :
    (levelError ≤ r.level → (∃ a ∈ r.attrs, attrIsCanceledError a = true) →
      filteredHandlerHandle r = none) ∧
    (¬ (levelError ≤ r.level ∧ ∃ a ∈ r.attrs, attrIsCanceledError a = true) →
      filteredHandlerHandle r = some r) := by
  constructor
  · intro hlev hex
    simp [filteredHandlerHandle, hlev, List.any_eq_true, hex]
  · intro hn
    rw [filteredHandlerHandle, if_neg]
    simp only [Bool.and_eq_true, decide_eq_true_eq, List.any_eq_true]
    exact fun hc => hn ⟨hc.1, hc.2⟩

theorem C9_witness :
    filteredHandlerHandle ⟨8, [⟨.errVal .canceledErr⟩]⟩ = none ∧
    filteredHandlerHandle ⟨4, [⟨.errVal .canceledErr⟩]⟩ = some ⟨4, [⟨.errVal .canceledErr⟩]⟩ ∧
    filteredHandlerHandle ⟨8, [⟨.errVal (.mk "boom")⟩]⟩ = some ⟨8, [⟨.errVal (.mk "boom")⟩]⟩ :=
  ⟨(C9_filtered_handler _).1 (by decide)
      ⟨⟨SlogValue.errVal GoErr.canceledErr⟩, List.mem_singleton.mpr rfl, rfl⟩,
   (C9_filtered_handler _).2 (by decide),
   (C9_filtered_handler _).2 (by simp [attrIsCanceledError, isCanceled])⟩

/-- C10: when the flag listing masks a flag whose name contains
`"api-key"` and whose value is longer than 4 characters, the logged value
is asterisks followed by exactly the last 4 characters of the real value,
and two values of the same length with the same last 4 characters produce
identical logged flag lines. -/
theorem C10_api_key_masking (name val₁ val₂ origin : List Char)
    (hname : containsSub name "api-key".toList = true) (hlen : val₁.length > 4)
    (hlen₂ : val₂.length = val₁.length)
    (hlast : val₂.drop (val₂.length - 4) = val₁.drop (val₁.length - 4)) :
    maskFlagValue name val₁ =
      List.replicate (val₁.length - 4) '*' ++ val₁.drop (val₁.length - 4) ∧
    (val₁.drop (val₁.length - 4)).length = 4 ∧
    loggedFlagLine name val₁ origin = loggedFlagLine name val₂ origin := by
  have hc₁ : (containsSub name "api-key".toList && decide (val₁.length > 4)) = true := by
    rw [hname]
    simpa using hlen
  have hc₂ : (containsSub name "api-key".toList && decide (val₂.length > 4)) = true := by
    rw [hname]
    simp only [Bool.true_and, decide_eq_true_eq]
    omega
  refine ⟨?_, ?_, ?_⟩
  · unfold maskFlagValue
    rw [if_pos hc₁]
  · rw [List.length_drop]
    omega
  · unfold loggedFlagLine maskFlagValue
    rw [if_pos hc₁, if_pos hc₂, hlast, hlen₂]

theorem C10_witness :
    loggedFlagLine "api-key".toList "abcdWXYZ".toList "cli".toList =
      loggedFlagLine "api-key".toList "0000WXYZ".toList "cli".toList :=
  (C10_api_key_masking "api-key".toList "abcdWXYZ".toList "0000WXYZ".toList "cli".toList
    (by decide) (by decide) (by decide) (by decide)).2.2

/-! ## C1: the reporting goroutine's final render -/

theorem progressLoop_no_final (sched : List SelectCase) :
    ∀ events ret, progressLoop sched = some (events, ret) →
      ProgressEvent.finalRender ∉ events := by
  induction sched with
  | nil => intro events ret h; simp [progressLoop] at h
  | cons c rest ih =>
    intro events ret h
    cases c with
    | tick =>
      simp only [progressLoop] at h
      obtain ⟨⟨evs, r⟩, hrest, heq⟩ := Option.map_eq_some'.mp h
      obtain ⟨rfl, rfl⟩ : ProgressEvent.periodicRender :: evs = events ∧ r = ret := by
        exact ⟨congrArg Prod.fst heq, congrArg Prod.snd heq⟩
      intro hmem
      rcases List.mem_cons.mp hmem with hx | hx
      · exact ProgressEvent.noConfusion hx
      · exact ih evs r hrest hx
    | stop =>
      simp only [progressLoop, Option.some.injEq, Prod.mk.injEq] at h
      rw [← h.1]
      simp
    | ctxDone =>
      simp only [progressLoop, Option.some.injEq, Prod.mk.injEq] at h
      rw [← h.1]
      simp

/-- C1: on every schedule on which the reporting goroutine terminates
(the completion signal `stopProgress` closes or the context is
cancelled), its event trace contains exactly one final render — never
zero and never two — and that final render is the last thing the
goroutine does. -/
theorem C1_exactly_one_final_render (sched : List SelectCase)
    (events : List ProgressEvent) (ret : Option GoErr)
    (h : progressTask sched = some (events, ret)) :
    events.count ProgressEvent.finalRender = 1 ∧
    events.getLast? = some ProgressEvent.finalRender := by
  obtain ⟨⟨evs, r⟩, hloop, heq⟩ := Option.map_eq_some'.mp h
  obtain ⟨rfl, rfl⟩ : evs ++ [ProgressEvent.finalRender] = events ∧ r = ret :=
    ⟨congrArg Prod.fst heq, congrArg Prod.snd heq⟩
  constructor
  · rw [List.count_append,
      List.count_eq_zero_of_not_mem (progressLoop_no_final sched evs r hloop)]
    rfl
  · exact List.getLast?_concat evs

theorem C1_witness :
    [ProgressEvent.periodicRender, ProgressEvent.finalRender].count ProgressEvent.finalRender = 1 ∧
    [ProgressEvent.periodicRender, ProgressEvent.finalRender].getLast? =
      some ProgressEvent.finalRender :=
  C1_exactly_one_final_render [.tick, .stop]
    [ProgressEvent.periodicRender, ProgressEvent.finalRender] none rfl

/-! ## C2: an album-fetch failure is swallowed -/

/-- C2, behaviour of the code at the failing input: when only the
album-fetch phase fails, no cancellation cause is ever resolved
(`context.Cause` is nil at `noui.go:132`), so the pipeline goroutine
falls through to `uc.uploadLoop` — the upload loop IS started — and
`runNoUI` returns nil instead of the album-fetch error, for every
scheduling of the phase join and of the reporting goroutine's exit. -/
theorem C2_album_error_swallowed :
    ∀ assetsFirst viaStop : Bool,
      (runNoUI (albumFailInput (.mk "album fetch failed")) assetsFirst viaStop).uploadStarted
          = true ∧
      (runNoUI (albumFailInput (.mk "album fetch failed")) assetsFirst viaStop).ret = none := by
  decide

/-! ## C3: first cause wins -/

/-- C3: once a cancellation cause is set, every later cancel call is a
no-op; a first cause `E1` survives any sequence of later cancellation
attempts; and in a run where the upload loop resolves `E1` first and the
advisory path attempts a second cancellation later, the run's resolved
cause and `runNoUI`'s returned error are `E1`. -/
theorem C3_first_cause_wins (E1 : GoErr) (later : List (Option GoErr)) :
    (∀ cell c e, cell = some c → cancelCell cell e = some c) ∧
    List.foldl cancelCell (cancelCell none (some E1)) later = some E1 ∧
    ∀ fin viaStop,
      (runNoUI (uploadFailsInput E1 fin) true viaStop).resolvedCause = some E1 ∧
      (runNoUI (uploadFailsInput E1 fin) true viaStop).ret = some E1 := by
  refine ⟨fun cell c e hc => by rw [hc]; rfl, ?_, ?_⟩
  · have hstart : cancelCell none (some E1) = some E1 := rfl
    rw [hstart]
    induction later with
    | nil => rfl
    | cons x rest ih => rw [List.foldl_cons]; exact ih
  · intro fin viaStop
    cases fin <;>
      simp [runNoUI, uploadPipeline, afterPhases, uploadFailsInput, cancelCell,
        goJoin, contextCause, progressReturn, Option.orElse]

theorem C3_witness :
    List.foldl cancelCell (cancelCell none (some (.mk "E1"))) [some (.mk "E2")] =
      some (.mk "E1") ∧
    (runNoUI (uploadFailsInput (.mk "E1") none) true true).ret = some (.mk "E1") :=
  ⟨(C3_first_cause_wins (.mk "E1") [some (.mk "E2")]).2.1,
   ((C3_first_cause_wins (.mk "E1") [some (.mk "E2")]).2.2 none true).2⟩

/-! ## C4: the advisory cause -/

/-- C4 counterexample: with every phase, the upload loop and the
finishing step succeeding and one error-class counter non-zero, the
cancellation cause IS resolved to the aggregate advisory message, yet on
the schedule where the reporting goroutine's `select` observes the
completion signal (both `stopProgress` and `ctx.Done()` are ready at
that point) both goroutines return nil, `uiGrp.Wait()` returns nil, and
`runNoUI` returns nil — the caller does not observe a failure, so the
claim as stated is false. -/
theorem C4_counterexample :
    (runNoUI advisoryOnlyInput true true).resolvedCause = some advisoryErr ∧
    (runNoUI advisoryOnlyInput true true).ret = none := by decide

/-- C4 amended: if the three phases and the upload loop complete without
any cancellation cause being resolved and at least one of the four
error-class counters is non-zero after the loop, the cancellation cause
is resolved to the aggregate advisory message; `runNoUI` returns that
non-nil error on every schedule in which the reporting goroutine observes
the context cancellation, but returns nil on the schedule in which the
reporting goroutine observes the completion signal instead. -/
theorem C4_advisory_cause (inp : RunInputs) (assetsFirst : Bool)
    (hroot : inp.rootCause = none) (hassets : inp.assetsErr = none)
    (halbums : inp.albumsErr = none) (hupload : inp.uploadErr = none)
    (hfinish : inp.finishErr = none)
    (hcnt : 0 < inp.errorUploadFailed + inp.errorServerError +
      inp.errorFileAccess + inp.errorIncomplete) :
    (runNoUI inp assetsFirst false).resolvedCause = some advisoryErr ∧
    (runNoUI inp assetsFirst false).ret = some advisoryErr ∧
    (runNoUI inp assetsFirst true).resolvedCause = some advisoryErr ∧
    (runNoUI inp assetsFirst true).ret = none := by
  simp [runNoUI, uploadPipeline, afterPhases, hroot, hassets, halbums, hupload,
    hfinish, hcnt, cancelCell, goJoin, contextCause, progressReturn, Option.orElse]

theorem C4_witness :
    (runNoUI ⟨none, none, none, none, none, 0, 0, 0, 2⟩ true false).ret = some advisoryErr :=
  (C4_advisory_cause ⟨none, none, none, none, none, 0, 0, 0, 2⟩ true rfl rfl rfl rfl rfl
    (by decide)).2.1

/-! ## C5: finishing-step errors and the returned error -/

/-- C5 counterexample: with upload-loop error `up` and finishing-step
error `fin`, `runNoUI` returns `up` alone — not the joined error, which
discards `fin` — and with the upload loop succeeding and only the
finishing step failing, `runNoUI` returns nil, so neither part of the
claim holds. -/
theorem C5_counterexample :
    (runNoUI (bothFailInput (.mk "up") (.mk "fin")) true true).ret = some (.mk "up") ∧
    (runNoUI (bothFailInput (.mk "up") (.mk "fin")) true true).ret ≠
      some (.joinErr (.mk "up") (.mk "fin")) ∧
    (runNoUI (finishOnlyInput (.mk "fin")) true true).ret = none := by decide

/-- C5 amended: the pipeline goroutine's own returned error combines the
upload-loop error and the finishing-step error via `errors.Join`, but the
error `runNoUI` returns is `context.Cause`: when both fail it is the
upload-loop error alone (the first resolved cause), and when only the
finishing step fails no cause is ever resolved and `runNoUI` returns
nil. -/
theorem C5_join_discarded_by_cause (a b : GoErr) (assetsFirst viaStop : Bool) :
    (uploadPipeline (bothFailInput a b) assetsFirst).ret = some (.joinErr a b) ∧
    (runNoUI (bothFailInput a b) assetsFirst viaStop).ret = some a ∧
    (runNoUI (finishOnlyInput b) assetsFirst viaStop).ret = none := by
  cases assetsFirst <;> cases viaStop <;>
    simp [runNoUI, uploadPipeline, afterPhases, bothFailInput, finishOnlyInput,
      cancelCell, goJoin, contextCause, progressReturn, Option.orElse]

/-! ## C8: the structured progress record -/

theorem startsWithChars_nil (hay : List Char) : startsWithChars hay [] = true := by
  cases hay <;> rfl

theorem startsWithChars_append (m r : List Char) : startsWithChars (m ++ r) m = true := by
  induction m with
  | nil => exact startsWithChars_nil r
  | cons c cs ih => simp [startsWithChars, ih]

theorem startsWithChars_extend (hay r m : List Char) (h : startsWithChars hay m = true) :
    startsWithChars (hay ++ r) m = true := by
  induction m generalizing hay with
  | nil => exact startsWithChars_nil (hay ++ r)
  | cons d ds ih =>
    cases hay with
    | nil => exact absurd h (by simp [startsWithChars])
    | cons c cs =>
      simp only [startsWithChars, Bool.and_eq_true] at h
      simp only [List.cons_append, startsWithChars, Bool.and_eq_true]
      exact ⟨h.1, ih cs h.2⟩

theorem containsSub_nil (hay : List Char) : containsSub hay [] = true := by
  cases hay with
  | nil => rfl
  | cons c cs => simp [containsSub, startsWithChars]

theorem containsSub_self_append (m r : List Char) : containsSub (m ++ r) m = true := by
  cases m with
  | nil => exact containsSub_nil r
  | cons c cs =>
    show containsSub (c :: (cs ++ r)) (c :: cs) = true
    have hs := startsWithChars_append (c :: cs) r
    simp only [List.cons_append] at hs
    simp [containsSub, hs]

theorem containsSub_refl (m : List Char) : containsSub m m = true := by
  have h := containsSub_self_append m []
  simpa using h

theorem containsSub_append_left (l hay m : List Char) (h : containsSub hay m = true) :
    containsSub (l ++ hay) m = true := by
  induction l with
  | nil => exact h
  | cons c cs ih =>
    show containsSub (c :: (cs ++ hay)) m = true
    simp [containsSub, ih]

theorem containsSub_append_right (hay r m : List Char) (h : containsSub hay m = true) :
    containsSub (hay ++ r) m = true := by
  induction hay with
  | nil =>
    cases m with
    | nil => exact containsSub_nil r
    | cons d ds => simp [containsSub] at h
  | cons c cs ih =>
    simp only [containsSub, Bool.or_eq_true] at h
    simp only [List.cons_append, containsSub, Bool.or_eq_true]
    rcases h with h | h
    · exact Or.inl (by simpa only [List.cons_append] using
        startsWithChars_extend (c :: cs) r m h)
    · exact Or.inr (ih h)

theorem digitChar_ne_newline (m : Nat) (h : m < 10) : Char.ofNat (48 + m) ≠ '\n' := by
  have hall : ∀ k : Fin 10, Char.ofNat (48 + k.val) ≠ '\n' := by decide
  exact hall ⟨m, h⟩

theorem natDecimalAux_ne_newline (fuel : Nat) :
    ∀ n acc, (∀ c ∈ acc, c ≠ '\n') → ∀ c ∈ natDecimalAux fuel n acc, c ≠ '\n' := by
  induction fuel with
  | zero => exact fun n acc hacc c hc => hacc c hc
  | succ fuel ih =>
    intro n acc hacc c hc
    have hacc₂ : ∀ x ∈ (Char.ofNat (48 + n % 10) :: acc), x ≠ '\n' := by
      intro x hx
      rcases List.mem_cons.mp hx with rfl | hx
      · exact digitChar_ne_newline _ (Nat.mod_lt _ (by omega))
      · exact hacc x hx
    simp only [natDecimalAux] at hc
    split at hc
    · exact hacc₂ c hc
    · exact ih (n / 10) _ hacc₂ c hc

theorem natDecimal_ne_newline (n : Nat) : ∀ c ∈ natDecimal n, c ≠ '\n' :=
  natDecimalAux_ne_newline (n + 1) n [] (fun c hc => absurd hc (List.not_mem_nil c))

theorem intDecimal_ne_newline (i : Int) : ∀ c ∈ intDecimal i, c ≠ '\n' := by
  unfold intDecimal
  split
  · intro c hc
    rcases List.mem_cons.mp hc with rfl | hc
    · decide
    · exact natDecimal_ne_newline _ c hc
  · exact natDecimal_ne_newline _

/-- The marshalled `ProgressUpdate`, with its constant chunks fused: the
JSON text is `{"type":"progress","timestamp":"<ts>","immich_read_pct":<pct>,
"assets_found":<a>,"upload_errors":<e>,"uploaded":<u>}`. -/
theorem marshalProgressUpdate_eq (ts : List Char) (pct a e u : Int) :
    marshalProgressUpdate ts pct a e u =
      "\x7b\"type\":\"progress\",\"timestamp\":\"".toList ++ ts
        ++ "\",\"immich_read_pct\":".toList ++ intDecimal pct
        ++ ",\"assets_found\":".toList ++ intDecimal a
        ++ ",\"upload_errors\":".toList ++ intDecimal e
        ++ ",\"uploaded\":".toList ++ intDecimal u
        ++ "\x7d".toList := by
  have h1 : "\x7b\"type\":".toList ++ (jsonQuote "progress".toList
      ++ (",\"timestamp\":".toList ++ ['"'])) =
      "\x7b\"type\":\"progress\",\"timestamp\":\"".toList := by decide
  have h2 : ('"' : Char) :: ",\"immich_read_pct\":".toList =
      "\",\"immich_read_pct\":".toList := by decide
  rw [← h1, ← h2]
  simp [marshalProgressUpdate, List.append_assoc]

/-- C8: every progress record emitted in structured mode is one single
write call to standard output, whose data is a newline-terminated line
with no interior newline, containing the discriminator `"type":"progress"`,
the timestamp, the scan percent, the assets-found count, the upload-errors
count and the uploaded count.  The hypothesis states that the RFC 3339
timestamp text contains no newline, which is true of every `time.Time`
rendering. -/
theorem C8_progress_record (ts : List Char) (pct a e u : Int) (hts : '\n' ∉ ts) :
    ∃ line : List Char,
      writeProgress ts pct a e u = [⟨Stream.stdout, line⟩] ∧
      line.getLast? = some '\n' ∧
      '\n' ∉ line.dropLast ∧
      containsSub line "\"type\":\"progress\"".toList = true ∧
      containsSub line ("\"timestamp\":\"".toList ++ ts ++ ['"']) = true ∧
      containsSub line ("\"immich_read_pct\":".toList ++ intDecimal pct) = true ∧
      containsSub line ("\"assets_found\":".toList ++ intDecimal a) = true ∧
      containsSub line ("\"upload_errors\":".toList ++ intDecimal e) = true ∧
      containsSub line ("\"uploaded\":".toList ++ intDecimal u) = true := by
  refine ⟨marshalProgressUpdate ts pct a e u ++ ['\n'], rfl, List.getLast?_concat _,
    ?_, ?_, ?_, ?_, ?_, ?_, ?_⟩
  · rw [List.dropLast_concat, marshalProgressUpdate_eq]
    intro h
    simp only [List.mem_append] at h
    rcases h with (((((((((h | h) | h) | h) | h) | h) | h) | h) | h) | h) | h
    · exact absurd h (by decide)
    · exact hts h
    · exact absurd h (by decide)
    · exact intDecimal_ne_newline pct _ h rfl
    · exact absurd h (by decide)
    · exact intDecimal_ne_newline a _ h rfl
    · exact absurd h (by decide)
    · exact intDecimal_ne_newline e _ h rfl
    · exact absurd h (by decide)
    · exact intDecimal_ne_newline u _ h rfl
    · exact absurd h (by decide)
  · rw [marshalProgressUpdate_eq]
    apply containsSub_append_right
    apply containsSub_append_right
    apply containsSub_append_right
    apply containsSub_append_right
    apply containsSub_append_right
    apply containsSub_append_right
    apply containsSub_append_right
    apply containsSub_append_right
    apply containsSub_append_right
    apply containsSub_append_right
    apply containsSub_append_right
    decide
  · rw [marshalProgressUpdate_eq]
    apply containsSub_append_right
    apply containsSub_append_right
    apply containsSub_append_right
    apply containsSub_append_right
    apply containsSub_append_right
    apply containsSub_append_right
    apply containsSub_append_right
    apply containsSub_append_right
    apply containsSub_append_right
    have hP : "\x7b\"type\":\"progress\",\"timestamp\":\"".toList =
        "\x7b\"type\":\"progress\",".toList ++ "\"timestamp\":\"".toList := by decide
    have hK : "\",\"immich_read_pct\":".toList =
        ['"'] ++ ",\"immich_read_pct\":".toList := by decide
    rw [hP, hK]
    simp only [List.append_assoc]
    apply containsSub_append_left
    have heq : "\"timestamp\":\"".toList ++ (ts ++ (['"'] ++ ",\"immich_read_pct\":".toList)) =
        ("\"timestamp\":\"".toList ++ (ts ++ ['"'])) ++ ",\"immich_read_pct\":".toList := by
      simp only [List.append_assoc]
    rw [heq]
    exact containsSub_self_append _ _
  · rw [marshalProgressUpdate_eq]
    apply containsSub_append_right
    apply containsSub_append_right
    apply containsSub_append_right
    apply containsSub_append_right
    apply containsSub_append_right
    apply containsSub_append_right
    apply containsSub_append_right
    apply containsSub_append_right
    have hK : "\",\"immich_read_pct\":".toList =
        "\",".toList ++ "\"immich_read_pct\":".toList := by decide
    rw [hK]
    simp only [List.append_assoc]
    apply containsSub_append_left
    apply containsSub_append_left
    apply containsSub_append_left
    exact containsSub_refl _
  · rw [marshalProgressUpdate_eq]
    apply containsSub_append_right
    apply containsSub_append_right
    apply containsSub_append_right
    apply containsSub_append_right
    apply containsSub_append_right
    apply containsSub_append_right
    have hK : ",\"assets_found\":".toList =
        ",".toList ++ "\"assets_found\":".toList := by decide
    rw [hK]
    simp only [List.append_assoc]
    apply containsSub_append_left
    apply containsSub_append_left
    apply containsSub_append_left
    apply containsSub_append_left
    apply containsSub_append_left
    exact containsSub_refl _
  · rw [marshalProgressUpdate_eq]
    apply containsSub_append_right
    apply containsSub_append_right
    apply containsSub_append_right
    apply containsSub_append_right
    have hK : ",\"upload_errors\":".toList =
        ",".toList ++ "\"upload_errors\":".toList := by decide
    rw [hK]
    simp only [List.append_assoc]
    apply containsSub_append_left
    apply containsSub_append_left
    apply containsSub_append_left
    apply containsSub_append_left
    apply containsSub_append_left
    apply containsSub_append_left
    apply containsSub_append_left
    exact containsSub_refl _
  · rw [marshalProgressUpdate_eq]
    apply containsSub_append_right
    apply containsSub_append_right
    have hK : ",\"uploaded\":".toList =
        ",".toList ++ "\"uploaded\":".toList := by decide
    rw [hK]
    simp only [List.append_assoc]
    apply containsSub_append_left
    apply containsSub_append_left
    apply containsSub_append_left
    apply containsSub_append_left
    apply containsSub_append_left
    apply containsSub_append_left
    apply containsSub_append_left
    apply containsSub_append_left
    apply containsSub_append_left
    exact containsSub_refl _

theorem C8_witness :
    '\n' ∉ "2026-01-01T00:00:00Z".toList ∧
    ∃ line : List Char,
      writeProgress "2026-01-01T00:00:00Z".toList 42 120 3 10 = [⟨Stream.stdout, line⟩] ∧
      line.getLast? = some '\n' ∧
      '\n' ∉ line.dropLast ∧
      containsSub line "\"type\":\"progress\"".toList = true ∧
      containsSub line ("\"timestamp\":\"".toList ++ "2026-01-01T00:00:00Z".toList ++ ['"']) = true ∧
      containsSub line ("\"immich_read_pct\":".toList ++ intDecimal 42) = true ∧
      containsSub line ("\"assets_found\":".toList ++ intDecimal 120) = true ∧
      containsSub line ("\"upload_errors\":".toList ++ intDecimal 3) = true ∧
      containsSub line ("\"uploaded\":".toList ++ intDecimal 10) = true :=
  ⟨by decide, C8_progress_record "2026-01-01T00:00:00Z".toList 42 120 3 10 (by decide)⟩

end ImmichGo
